import Mathlib

/-!
# mt_read_write.c : writer / fsync / reader threads over one shared queue state

Shallow embedding of `sdk/linux_kernel_drivers/edma/unit-test/mt_read_write.c`.

* The globals (`write_buf`, `read_buf`, `write_index`, `read_index`,
  `written_no_fsync`, `can_read`, `read_done`) and the locals of the three threads
  that survive a loop iteration (`size_of_data`, `offset`, `read_lock`) are the
  fields of `State`.
* Every section between `pthread_mutex_lock` and `pthread_mutex_unlock` is one atomic
  step.  The reader's unlocked test `while(!can_read)` is a step of its own, so the
  other threads can run between that test and the reader's locked section.
* The device is arbitrary: the values returned by `lseek`, `write` and `read`, the bytes
  `read` leaves in `dstBuf`, and the values returned by `rand()` are inputs of a step.
  The calls made on the device are recorded in `State.trace`.
* `exit(n)` ends the run: a step returns `Result.exited n _`.
* `srcBuf` and `dstBuf` are the lists of bytes they hold; their capacity `CHUNK_SIZE` is not
  part of the state.  `usleep` and `printf` have no effect on the state and are left out.
* `SIZE_OF_DATA` and `CHUNK_SIZE` are compile-time parameters of the source (`Config`).
* Signed variables are `Int` (signed overflow is undefined in C; the theorems show that
  the values stay in `[0, SIZE_OF_DATA]`); conversions to `int` and to
  `unsigned long long` are explicit (`toInt`, `toULL`).
-/

namespace MtReadWrite

/-! ## Machine arithmetic -/

/-- Conversion of a value to C `int` (32 bits, two's complement). -/
def toInt (z : Int) : Int := (z + 2147483648) % 4294967296 - 2147483648

/-- Conversion of a value to `unsigned long long` or `size_t` (64 bits). -/
def toULL (z : Int) : Int := z % 18446744073709551616

/-- C remainder `a % b`, which truncates toward zero. -/
def cmod (a b : Int) : Int := Int.tmod a b

/-- Largest value `rand()` returns; it is an `int`, here the glibc value. -/
def RAND_MAX : Int := 2147483647

/-- One `char` of a buffer. -/
abbrev Byte := Fin 256

/-- Compile-time parameters `SIZE_OF_DATA` and `CHUNK_SIZE` (lines 15-21). -/
structure Config where
  SIZE_OF_DATA : Nat
  CHUNK_SIZE : Nat
  deriving DecidableEq, Repr

/-- The parameters are usable: `CHUNK_SIZE` is a positive `int` (it is a modulus on line 74),
and `SIZE_OF_DATA`, also when added to the base offset `0x010000000`, fits the `long long`
indices and the `off_t` offsets. -/
def Config.wf (cfg : Config) : Prop :=
  0 < cfg.CHUNK_SIZE ∧ cfg.CHUNK_SIZE ≤ 2147483647 ∧
    cfg.SIZE_OF_DATA + 268435456 < 9223372036854775808

instance (cfg : Config) : Decidable cfg.wf := by
  unfold Config.wf; infer_instance

/-! ## Buffers -/

/-- The array `charset` of `rand_string` (line 44), without its terminating NUL. -/
def charset : List Byte :=
  ("abcdefghijklmnopqrstuvwxyzABCDEFGHIJKLMNOPQRTSUVWXYZ1234567890".toList).map
    (fun c => Fin.ofNat c.toNat)

/-- Function `rand_string` (lines 42-55): `str[i] = charset[rand() % 62]` for `i < size`, then
`str[size-1] = 0`.  `keys` are the values returned by the successive calls of `rand()`. -/
def rand_string (keys : List Int) (size : Nat) : List Byte :=
  ((List.range size).map
      (fun i => charset.getD (cmod (keys.getD i 0) ((charset.length : Nat) : Int)).toNat 0)).set
    (size - 1) 0

/-- Library `memcpy(dst + off, src, n)`: bytes `off .. off+n-1` of `dst` become bytes
`0 .. n-1` of `src`.  Positions beyond the end of `dst` (undefined behaviour in C) are
skipped, so the buffer keeps its length. -/
def memcpy (dst : List Byte) (off : Nat) (src : List Byte) : Nat → List Byte
  | 0 => dst
  | n + 1 => (memcpy dst off src n).set (off + n) (src.getD n 0)

/-- Library `memcmp(a, b, n)`: zero exactly when the first `n` bytes agree. -/
def memcmp (a b : List Byte) (n : Nat) : Int :=
  if a.take n = b.take n then 0 else 1

/-! ## State -/

/-- A call made on the device file descriptor. -/
inductive DevCall where
  | lseek (offset : Int)
  | write (count : Int)
  | read (count : Int)
  | fsync
  deriving DecidableEq, Repr

/-- Where the reader thread stands. -/
inductive ReadPc where
  /-- At the loop test (line 119) or spinning on line 125. -/
  | poll
  /-- Left the spin loop of line 125, about to take the lock on line 128. -/
  | ready
  /-- Past line 196. -/
  | done
  deriving DecidableEq, Repr

/-- Globals of the program and the live locals of its three threads. -/
structure State where
  write_buf : List Byte
  read_buf : List Byte
  write_index : Int
  read_index : Int
  written_no_fsync : Int
  can_read : Int
  read_done : Bool
  /-- `size_of_data` of `doWrite`. -/
  w_size_of_data : Int
  /-- `offset` of `doWrite`. -/
  w_offset : Int
  /-- `doWrite` has left its loop. -/
  w_done : Bool
  /-- `size_of_data` of `doRead`. -/
  r_size_of_data : Int
  /-- `offset` of `doRead`. -/
  r_offset : Int
  r_pc : ReadPc
  /-- `read_lock` of `doFsync`. -/
  f_read_lock : Bool
  /-- Device calls made so far, oldest first. -/
  trace : List DevCall
  deriving DecidableEq, Repr

/-- Outcome of a step: the run goes on, or the process called `exit(code)`. -/
inductive Result where
  | running (s : State)
  | exited (code : Int) (trace : List DevCall)
  deriving DecidableEq, Repr

/-- Device calls made up to the end of a step. -/
def Result.calls : Result → List DevCall
  | .running s => s.trace
  | .exited _ t => t

/-- The initial value of `offset` in `doWrite` and `doRead` (lines 65, 115). -/
def BASE_OFFSET : Int := 0x010000000

/-- State when the threads start: zeroed globals, buffers with the arbitrary contents
`malloc` returned (lines 230, 236), locals as initialised on lines 64-65, 113-115, 204. -/
def init (cfg : Config) (wb rb : List Byte) : State where
  write_buf := wb
  read_buf := rb
  write_index := 0
  read_index := 0
  written_no_fsync := 0
  can_read := 0
  read_done := false
  w_size_of_data := toULL cfg.SIZE_OF_DATA
  w_offset := BASE_OFFSET
  w_done := false
  r_size_of_data := toULL cfg.SIZE_OF_DATA
  r_offset := BASE_OFFSET
  r_pc := .poll
  f_read_lock := false
  trace := []

/-! ## doWrite -/

/-- What one pass of the loop of `doWrite` takes from outside. -/
structure WriteIn where
  /-- Value of `rand()` on line 74. -/
  rand : Int
  /-- Values of `rand()` inside `rand_string`. -/
  keys : List Int
  /-- Value assigned to `ret` on line 80. -/
  lseek_ret : Int
  /-- Value assigned to `ret` on line 85. -/
  write_ret : Int
  deriving DecidableEq, Repr

/-- Line 74: `write_size = size_of_data < CHUNK_SIZE ? size_of_data : rand() % CHUNK_SIZE`. -/
def write_size (CHUNK_SIZE : Int) (size_of_data : Int) (rand : Int) : Int :=
  toInt (if size_of_data < CHUNK_SIZE then size_of_data else cmod rand CHUNK_SIZE)

/-- One pass of the loop body of `doWrite` (lines 73-103). -/
def doWrite_iter (cfg : Config) (s : State) (inp : WriteIn) : Result :=
  let write_size := write_size cfg.CHUNK_SIZE s.w_size_of_data inp.rand
  let srcBuf := rand_string inp.keys cfg.CHUNK_SIZE
  let tr := s.trace ++ [DevCall.lseek s.w_offset]
  if inp.lseek_ret < 0 then .exited 3 tr
  else
    let tr := tr ++ [DevCall.write (toULL write_size)]
    let ret := inp.write_ret
    if ret ≠ write_size then .exited 1 tr
    else
      .running { s with
        w_offset := s.w_offset + ret
        written_no_fsync := s.written_no_fsync + ret
        write_buf := memcpy s.write_buf s.write_index.toNat srcBuf (toULL ret).toNat
        write_index := s.write_index + ret
        w_size_of_data := toULL (s.w_size_of_data - ret)
        trace := tr }

/-- One scheduling of the writer thread: the loop test of line 70, then the body or the
exit from the loop. -/
def doWrite_step (cfg : Config) (s : State) (inp : WriteIn) : Result :=
  if s.w_done then .running s
  else if s.w_size_of_data > 0 then doWrite_iter cfg s inp
  else .running { s with w_done := true }

/-! ## doRead -/

/-- What one locked section of `doRead` takes from outside. -/
structure ReadIn where
  /-- Value of `rand()` on line 130. -/
  rand : Int
  /-- Value assigned to `ret` on line 132. -/
  lseek_ret : Int
  /-- Value assigned to `ret` on line 137. -/
  read_ret : Int
  /-- Contents of `dstBuf` after the `read` of line 137. -/
  dstBuf : List Byte
  deriving DecidableEq, Repr

/-- Line 130: `read_size = can_read == 1 ? 1 : rand() % can_read`. -/
def read_size (can_read : Int) (rand : Int) : Int :=
  toInt (if can_read = 1 then 1 else cmod rand can_read)

/-- The unlocked part of `doRead`: the loop test of line 119 and one test of the spin loop
of line 125; when the loop test fails, lines 194-196. -/
def doRead_poll (s : State) : State :=
  match s.r_pc with
  | .poll =>
    if s.r_size_of_data > 0 then
      if s.can_read ≠ 0 then { s with r_pc := .ready } else s
    else { s with read_done := true, r_pc := .done }
  | _ => s

/-- The locked section of `doRead` (lines 128-189). -/
def doRead_iter (cfg : Config) (s : State) (inp : ReadIn) : Result :=
  let read_size := read_size s.can_read inp.rand
  let tr := s.trace ++ [DevCall.lseek s.r_offset]
  if inp.lseek_ret < 0 then .exited 3 tr
  else
    let tr := tr ++ [DevCall.read (toULL read_size)]
    let ret := inp.read_ret
    if ret ≠ read_size then .exited 2 tr
    else
      let read_buf := memcpy s.read_buf s.read_index.toNat inp.dstBuf (toULL ret).toNat
      let size_of_data := toULL (s.r_size_of_data - ret)
      if memcmp s.write_buf read_buf (toULL (cfg.SIZE_OF_DATA - size_of_data)).toNat ≠ 0 then
        .exited 4 tr
      else
        .running { s with
          r_offset := s.r_offset + ret
          can_read := s.can_read - ret
          read_buf := read_buf
          read_index := s.read_index + ret
          r_size_of_data := size_of_data
          r_pc := .poll
          trace := tr }

/-- One scheduling of the reader's locked section; it runs only after the spin loop. -/
def doRead_step (cfg : Config) (s : State) (inp : ReadIn) : Result :=
  match s.r_pc with
  | .ready => doRead_iter cfg s inp
  | _ => .running s

/-! ## doFsync -/

/-- The locked section of `doFsync` (lines 209-216). -/
def doFsync_iter (s : State) : State :=
  { s with
    f_read_lock := s.read_done
    trace := s.trace ++ [DevCall.fsync]
    can_read := s.can_read + s.written_no_fsync
    written_no_fsync := 0 }

/-- One scheduling of the fsync thread: the loop test of line 206, then the body. -/
def doFsync_step (s : State) : State :=
  if s.f_read_lock then s else doFsync_iter s

/-! ## Interleavings -/

/-- One scheduling decision together with what the step takes from outside. -/
inductive Action where
  | write (inp : WriteIn)
  | fsync
  | poll
  | read (inp : ReadIn)
  deriving DecidableEq, Repr

/-- The values `rand()` supplies lie in `[0, RAND_MAX]`. -/
def Action.valid : Action → Prop
  | .write inp => (0 ≤ inp.rand ∧ inp.rand ≤ RAND_MAX) ∧ ∀ k ∈ inp.keys, 0 ≤ k ∧ k ≤ RAND_MAX
  | .fsync => True
  | .poll => True
  | .read inp => 0 ≤ inp.rand ∧ inp.rand ≤ RAND_MAX

instance (a : Action) : Decidable a.valid := by
  cases a <;> unfold Action.valid <;> infer_instance

/-- One atomic step of the program. -/
def step (cfg : Config) (s : State) : Action → Result
  | .write inp => doWrite_step cfg s inp
  | .fsync => .running (doFsync_step s)
  | .poll => .running (doRead_poll s)
  | .read inp => doRead_step cfg s inp

/-- Runs a schedule from a state; stops at the first `exit`. -/
def run (cfg : Config) : State → List Action → Result
  | s, [] => .running s
  | s, a :: rest =>
    match step cfg s a with
    | .running s' => run cfg s' rest
    | .exited c t => .exited c t

/-- States the program can be in without having called `exit`. -/
inductive Reachable (cfg : Config) : State → Prop where
  | start (wb rb : List Byte) (hw : wb.length = cfg.SIZE_OF_DATA)
      (hr : rb.length = cfg.SIZE_OF_DATA) : Reachable cfg (init cfg wb rb)
  | next (s s' : State) (a : Action) (hs : Reachable cfg s) (ha : a.valid)
      (h : step cfg s a = .running s') : Reachable cfg s'

/-! ## main -/

/-- Value of `ENOMEM` in `errno.h` (Linux). -/
def ENOMEM : Int := 12

/-- What `main` observes of the operations it starts with, and the buffers it compares once
the three threads are joined. -/
structure MainIn where
  /-- The `malloc` of line 230 returned a non-null pointer. -/
  write_buf_ok : Bool
  /-- The `malloc` of line 236 returned a non-null pointer. -/
  read_buf_ok : Bool
  /-- Value of `pthread_mutex_init` (line 244). -/
  mutex_init_ret : Int
  /-- Value of `open` (line 250). -/
  fd : Int
  /-- Value of `pthread_create` for `doWrite` (line 256). -/
  create_write_ret : Int
  /-- Value of `pthread_create` for `doFsync` (line 264). -/
  create_fsync_ret : Int
  /-- Value of `pthread_create` for `doRead` (line 272). -/
  create_read_ret : Int
  /-- Contents of `write_buf` after the joins. -/
  write_buf : List Byte
  /-- Contents of `read_buf` after the joins. -/
  read_buf : List Byte
  deriving DecidableEq, Repr

/-- Function `main` (lines 223-317): the value it returns. -/
def main (cfg : Config) (i : MainIn) : Int :=
  let ret : Int := 0
  if !i.write_buf_ok then -ENOMEM
  else if !i.read_buf_ok then -ENOMEM
  else if i.mutex_init_ret ≠ 0 then ret
  else if i.fd = -1 then -1
  else
    let ret := i.create_write_ret
    if ret ≠ 0 then ret
    else
      let ret := i.create_fsync_ret
      if ret ≠ 0 then ret
      else
        let ret := i.create_read_ret
        if ret ≠ 0 then ret
        else if memcmp i.write_buf i.read_buf cfg.SIZE_OF_DATA = 0 then ret
        else -1

/-- Every operation `main` starts with succeeded. -/
def MainIn.startup_ok (i : MainIn) : Prop :=
  i.write_buf_ok = true ∧ i.read_buf_ok = true ∧ i.mutex_init_ret = 0 ∧ i.fd ≠ -1 ∧
    i.create_write_ret = 0 ∧ i.create_fsync_ret = 0 ∧ i.create_read_ret = 0


instance (i : MainIn) : Decidable i.startup_ok := by
  unfold MainIn.startup_ok; infer_instance

/-! ## Invariant -/

/-- Facts that hold in every state the program reaches. -/
structure Inv (cfg : Config) (s : State) : Prop where
  wlen : s.write_buf.length = cfg.SIZE_OF_DATA
  rlen : s.read_buf.length = cfg.SIZE_OF_DATA
  ri_nonneg : 0 ≤ s.read_index
  cr_nonneg : 0 ≤ s.can_read
  wnf_nonneg : 0 ≤ s.written_no_fsync
  sum : s.read_index + s.can_read + s.written_no_fsync = s.write_index
  wi_le : s.write_index ≤ cfg.SIZE_OF_DATA
  wsize : s.w_size_of_data = cfg.SIZE_OF_DATA - s.write_index
  rsize : s.r_size_of_data = cfg.SIZE_OF_DATA - s.read_index
  woff : s.w_offset = BASE_OFFSET + s.write_index
  roff : s.r_offset = BASE_OFFSET + s.read_index
  ready : s.r_pc = .ready → 0 < s.can_read
  rdone : s.read_done = true → s.read_index = cfg.SIZE_OF_DATA
  wdone : s.w_done = true → s.write_index = cfg.SIZE_OF_DATA
  same : s.read_buf.take s.read_index.toNat = s.write_buf.take s.read_index.toNat
  nofsync : DevCall.fsync ∉ s.trace → s.can_read = 0 ∧ s.read_index = 0

/-! ## A sample run: `SIZE_OF_DATA = 8`, `CHUNK_SIZE = 3`

The device of the sample run behaves as a queue: `lseek` returns the offset it was given,
`write` and `read` return the requested count, `read` delivers the bytes written. -/

/-- Sample parameters. -/
def cfgA : Config := ⟨8, 3⟩

/-- Sample contents of a freshly allocated buffer. -/
def bufA : List Byte := [0, 0, 0, 0, 0, 0, 0, 0]

/-- Three passes of the writer, each writing `rand() % 3 = 2` bytes. -/
def schedPending : List Action :=
  [.write ⟨2, [0, 1, 2], 0x10000000, 2⟩,
   .write ⟨5, [2, 3, 4], 0x10000002, 2⟩,
   .write ⟨8, [4, 5, 6], 0x10000004, 2⟩]

/-- Then one fsync, and the reader leaves its spin loop. -/
def schedReady : List Action := schedPending ++ [.fsync, .poll]

/-- What the reader's first locked section takes: `rand() = 5`, and `read` returns 5 bytes. -/
def readInA : ReadIn := ⟨5, 0x10000000, 5, [97, 98, 99, 100, 101]⟩

/-- Then the reader's first locked section. -/
def schedRead : List Action := schedReady ++ [.read readInA]

/-- Then the rest of the run, until the three threads have left their loops. -/
def schedEnd : List Action :=
  schedRead ++
    [.write ⟨0, [6, 7, 8], 0x10000006, 2⟩, .write ⟨0, [], 0, 0⟩, .fsync,
     .poll, .read ⟨4, 0x10000005, 1, [102]⟩,
     .poll, .read ⟨3, 0x10000006, 1, [103]⟩,
     .poll, .read ⟨7, 0x10000007, 1, [104]⟩,
     .poll, .fsync]

/-- State after `schedPending`. -/
def stPending : State where
  write_buf := [97, 98, 99, 100, 101, 102, 0, 0]
  read_buf := [0, 0, 0, 0, 0, 0, 0, 0]
  write_index := 6
  read_index := 0
  written_no_fsync := 6
  can_read := 0
  read_done := false
  w_size_of_data := 2
  w_offset := 0x10000006
  w_done := false
  r_size_of_data := 8
  r_offset := 0x10000000
  r_pc := .poll
  f_read_lock := false
  trace := [.lseek 0x10000000, .write 2, .lseek 0x10000002, .write 2, .lseek 0x10000004, .write 2]

/-- State after `schedReady`. -/
def stReady : State :=
  { stPending with
    written_no_fsync := 0
    can_read := 6
    r_pc := .ready
    trace := stPending.trace ++ [.fsync] }

/-- State after `schedRead`. -/
def stRead : State :=
  { stReady with
    read_buf := [97, 98, 99, 100, 101, 0, 0, 0]
    read_index := 5
    can_read := 1
    r_size_of_data := 3
    r_offset := 0x10000005
    r_pc := .poll
    trace := stReady.trace ++ [.lseek 0x10000000, .read 5] }

/-- State after `schedEnd`. -/
def stEnd : State where
  write_buf := [97, 98, 99, 100, 101, 102, 103, 104]
  read_buf := [97, 98, 99, 100, 101, 102, 103, 104]
  write_index := 8
  read_index := 8
  written_no_fsync := 0
  can_read := 0
  read_done := true
  w_size_of_data := 0
  w_offset := 0x10000008
  w_done := true
  r_size_of_data := 0
  r_offset := 0x10000008
  r_pc := .done
  f_read_lock := true
  trace := stRead.trace ++
    [.lseek 0x10000006, .write 2, .fsync, .lseek 0x10000005, .read 1,
     .lseek 0x10000006, .read 1, .lseek 0x10000007, .read 1, .fsync]

/-- Sample input of `main`: everything succeeds except `pthread_mutex_init`. -/
def mainInMutexFails : MainIn where
  write_buf_ok := true
  read_buf_ok := true
  mutex_init_ret := 12
  fd := 3
  create_write_ret := 0
  create_fsync_ret := 0
  create_read_ret := 0
  write_buf := bufA
  read_buf := bufA

/-! ## Arithmetic and buffer lemmas -/

/-- For a non-negative dividend the C remainder is the Euclidean remainder. -/
theorem cmod_eq_emod {a : Int} (b : Int) (ha : 0 ≤ a) : cmod a b = a % b := by
  unfold cmod
  rcases Int.le_total 0 b with hb | hb
  · exact Int.tmod_eq_emod ha hb
  · have h1 : Int.tmod a b = Int.tmod a (-b) := by rw [Int.tmod_neg]
    have h2 : a % b = a % (-b) := by rw [Int.emod_neg]
    rw [h1, h2]
    exact Int.tmod_eq_emod ha (by omega)

/-- A value in the range of `int` is unchanged by the conversion to `int`. -/
theorem toInt_eq {z : Int} (h1 : -2147483648 ≤ z) (h2 : z ≤ 2147483647) : toInt z = z := by
  unfold toInt; omega

/-- A value in the range of `unsigned long long` is unchanged by the conversion. -/
theorem toULL_eq {z : Int} (h1 : 0 ≤ z) (h2 : z < 18446744073709551616) : toULL z = z := by
  unfold toULL; omega

/-- The element that follows a list `l` in `l ++ a :: rest` is `a`. -/
theorem getElem?_after {α : Type} (l : List α) (a : α) (rest : List α) :
    (l ++ a :: rest)[l.length]? = some a := by
  rw [List.getElem?_append_right (Nat.le_refl _)]
  simp

/-- Copying into a buffer keeps its length. -/
theorem memcpy_length (dst : List Byte) (off : Nat) (src : List Byte) (n : Nat) :
    (memcpy dst off src n).length = dst.length := by
  induction n with
  | zero => rfl
  | succ n ih => simp [memcpy, ih]

/-- Setting position `n` leaves the first `m ≤ n` elements unchanged. -/
theorem take_set_of_le {α : Type} (a : α) (l : List α) {n m : Nat} (h : m ≤ n) :
    (l.set n a).take m = l.take m :=
  List.ext_getElem? fun i => by
    rw [List.getElem?_take, List.getElem?_take]
    split
    · rw [List.getElem?_set_ne (by omega)]
    · rfl

/-- A remainder of a non-negative value is at most the value. -/
theorem emod_le_self {r c : Int} (hr : 0 ≤ r) (hc : 0 < c) : r % c ≤ r := by
  have h1 := Int.emod_add_ediv r c
  have h2 : 0 ≤ c * (r / c) := Int.mul_nonneg (by omega) (Int.ediv_nonneg hr (by omega))
  linarith

/-- Copying at offset `off` leaves the first `k ≤ off` bytes unchanged. -/
theorem memcpy_take (dst : List Byte) (off : Nat) (src : List Byte) (n k : Nat) (hk : k ≤ off) :
    (memcpy dst off src n).take k = dst.take k := by
  induction n with
  | zero => rfl
  | succ n ih =>
    simp only [memcpy]
    rw [take_set_of_le _ _ (by omega), ih]

/-- Line 74: the chunk length is in `[0, size_of_data]` and below `CHUNK_SIZE`. -/
theorem write_size_bounds (C rem r : Int) (hC : 0 < C) (hC' : C ≤ 2147483647)
    (hrem : 0 ≤ rem) (hr : 0 ≤ r) :
    0 ≤ write_size C rem r ∧ write_size C rem r ≤ rem ∧ write_size C rem r < C := by
  unfold write_size
  rw [cmod_eq_emod C hr]
  have h1 := Int.emod_nonneg r (show C ≠ 0 by omega)
  have h2 := Int.emod_lt_of_pos r hC
  split
  · rw [toInt_eq (by omega) (by omega)]; omega
  · rw [toInt_eq (by omega) (by omega)]; omega

/-- Line 130: with `can_read > 0` the read length is in `[0, can_read]`, and below
`can_read` unless `can_read = 1`. -/
theorem read_size_bounds (c r : Int) (hc : 0 < c) (hr : 0 ≤ r) (hr' : r ≤ RAND_MAX) :
    0 ≤ read_size c r ∧ read_size c r ≤ c ∧ (c ≠ 1 → read_size c r < c) := by
  unfold read_size
  unfold RAND_MAX at hr'
  rw [cmod_eq_emod c hr]
  have h1 := Int.emod_nonneg r (show c ≠ 0 by omega)
  have h2 := Int.emod_lt_of_pos r hc
  have h3 : r % c ≤ r := emod_le_self hr hc
  split
  · rw [toInt_eq (by omega) (by omega)]; omega
  · rw [toInt_eq (by omega) (by omega)]; omega

/-! ## The invariant is preserved -/

/-- The invariant holds when the threads start. -/
theorem inv_init (cfg : Config) (hcfg : cfg.wf) (wb rb : List Byte)
    (hw : wb.length = cfg.SIZE_OF_DATA) (hr : rb.length = cfg.SIZE_OF_DATA) :
    Inv cfg (init cfg wb rb) := by
  obtain ⟨_, _, hT⟩ := hcfg
  have hsz : toULL cfg.SIZE_OF_DATA = cfg.SIZE_OF_DATA := toULL_eq (by omega) (by omega)
  constructor <;> simp [init, hw, hr, hsz]

/-- A step of the writer that does not exit keeps the invariant. -/
theorem inv_write (cfg : Config) (hcfg : cfg.wf) (s s' : State) (inp : WriteIn)
    (hv : (Action.write inp).valid) (hs : Inv cfg s)
    (h : doWrite_step cfg s inp = .running s') : Inv cfg s' := by
  obtain ⟨hC, hC', hT⟩ := hcfg
  unfold doWrite_step at h
  split at h
  · cases h; exact hs
  split at h
  · rename_i hdone hpos
    have hb := write_size_bounds cfg.CHUNK_SIZE s.w_size_of_data inp.rand
      (by omega) (by omega) (by omega) hv.1.1
    unfold doWrite_iter at h
    simp only at h
    split at h
    · cases h
    split at h
    · cases h
    rename_i hseek hret
    simp only [ne_eq, not_not] at hret
    cases h
    have h1 := hs.wsize
    have h2 := hs.sum
    have h3 := hs.wi_le
    have h4 := hs.ri_nonneg
    have h5 := hs.cr_nonneg
    have h6 := hs.wnf_nonneg
    have hu : toULL (s.w_size_of_data - inp.write_ret) = s.w_size_of_data - inp.write_ret :=
      toULL_eq (by omega) (by omega)
    constructor <;> simp only [memcpy_length, hu]
    · exact hs.wlen
    · exact hs.rlen
    · exact hs.ri_nonneg
    · exact hs.cr_nonneg
    · omega
    · omega
    · omega
    · omega
    · exact hs.rsize
    · have := hs.woff; omega
    · exact hs.roff
    · exact hs.ready
    · exact hs.rdone
    · intro hd; simp [hd] at hdone
    · rw [memcpy_take _ _ _ _ _ (by omega)]; exact hs.same
    · intro hn
      apply hs.nofsync
      intro hm
      apply hn
      simp [hm]
  · rename_i hdone hpos
    cases h
    have h1 := hs.wsize
    have h3 := hs.wi_le
    constructor <;> try simp only
    · exact hs.wlen
    · exact hs.rlen
    · exact hs.ri_nonneg
    · exact hs.cr_nonneg
    · exact hs.wnf_nonneg
    · exact hs.sum
    · exact hs.wi_le
    · exact hs.wsize
    · exact hs.rsize
    · exact hs.woff
    · exact hs.roff
    · exact hs.ready
    · exact hs.rdone
    · intro _; omega
    · exact hs.same
    · exact hs.nofsync

/-- A step of the fsync thread keeps the invariant. -/
theorem inv_fsync (cfg : Config) (s : State) (hs : Inv cfg s) : Inv cfg (doFsync_step s) := by
  unfold doFsync_step
  split
  · exact hs
  · unfold doFsync_iter
    have h2 := hs.sum
    have h5 := hs.cr_nonneg
    have h6 := hs.wnf_nonneg
    constructor <;> try simp only
    · exact hs.wlen
    · exact hs.rlen
    · exact hs.ri_nonneg
    · omega
    · omega
    · omega
    · exact hs.wi_le
    · exact hs.wsize
    · exact hs.rsize
    · exact hs.woff
    · exact hs.roff
    · intro hr; have := hs.ready hr; omega
    · exact hs.rdone
    · exact hs.wdone
    · exact hs.same
    · intro hn; simp at hn

/-- The unlocked part of the reader keeps the invariant. -/
theorem inv_poll (cfg : Config) (s : State) (hs : Inv cfg s) : Inv cfg (doRead_poll s) := by
  unfold doRead_poll
  split
  · split
    · split
      · rename_i hne
        have h5 := hs.cr_nonneg
        constructor <;> try simp only
        · exact hs.wlen
        · exact hs.rlen
        · exact hs.ri_nonneg
        · exact hs.cr_nonneg
        · exact hs.wnf_nonneg
        · exact hs.sum
        · exact hs.wi_le
        · exact hs.wsize
        · exact hs.rsize
        · exact hs.woff
        · exact hs.roff
        · intro _; omega
        · exact hs.rdone
        · exact hs.wdone
        · exact hs.same
        · exact hs.nofsync
      · exact hs
    · rename_i hz
      have h1 := hs.rsize
      have h2 := hs.sum
      have h3 := hs.wi_le
      have h5 := hs.cr_nonneg
      have h6 := hs.wnf_nonneg
      constructor <;> try simp only
      · exact hs.wlen
      · exact hs.rlen
      · exact hs.ri_nonneg
      · exact hs.cr_nonneg
      · exact hs.wnf_nonneg
      · exact hs.sum
      · exact hs.wi_le
      · exact hs.wsize
      · exact hs.rsize
      · exact hs.woff
      · exact hs.roff
      · intro hr; cases hr
      · intro _; omega
      · exact hs.wdone
      · exact hs.same
      · exact hs.nofsync
  · exact hs

/-- A locked section of the reader that does not exit keeps the invariant. -/
theorem inv_read (cfg : Config) (hcfg : cfg.wf) (s s' : State) (inp : ReadIn)
    (hv : (Action.read inp).valid) (hs : Inv cfg s)
    (h : doRead_step cfg s inp = .running s') : Inv cfg s' := by
  obtain ⟨hC, hC', hT⟩ := hcfg
  unfold doRead_step at h
  split at h
  · rename_i hpc
    have hpos := hs.ready hpc
    have hb := read_size_bounds s.can_read inp.rand hpos hv.1 hv.2
    unfold doRead_iter at h
    simp only at h
    split at h
    · cases h
    split at h
    · cases h
    split at h
    · cases h
    rename_i hseek hret hcmp
    simp only [ne_eq, not_not] at hret hcmp
    cases h
    have h1 := hs.rsize
    have h2 := hs.sum
    have h3 := hs.wi_le
    have h4 := hs.ri_nonneg
    have h6 := hs.wnf_nonneg
    have hu : toULL (s.r_size_of_data - inp.read_ret) = s.r_size_of_data - inp.read_ret :=
      toULL_eq (by omega) (by omega)
    have hu' : toULL (↑cfg.SIZE_OF_DATA - (s.r_size_of_data - inp.read_ret))
        = s.read_index + inp.read_ret := by
      rw [toULL_eq (by omega) (by omega)]; omega
    rw [hu, hu'] at hcmp
    unfold memcmp at hcmp
    split at hcmp
    · rename_i heq
      constructor <;> simp only [memcpy_length, hu]
      · exact hs.wlen
      · exact hs.rlen
      · omega
      · omega
      · exact hs.wnf_nonneg
      · omega
      · exact hs.wi_le
      · exact hs.wsize
      · omega
      · exact hs.woff
      · have := hs.roff; omega
      · intro hr; cases hr
      · intro hd; have := hs.rdone hd; omega
      · exact hs.wdone
      · exact heq.symm
      · intro hn
        exfalso
        have := hs.nofsync (fun hm => hn (by simp [hm]))
        omega
    · simp at hcmp
  · cases h; exact hs

/-- Every reachable state satisfies the invariant. -/
theorem reachable_inv (cfg : Config) (hcfg : cfg.wf) (s : State) (h : Reachable cfg s) :
    Inv cfg s := by
  induction h with
  | start wb rb hw hr => exact inv_init cfg hcfg wb rb hw hr
  | next s s' a _ ha hstep ih =>
    cases a with
    | write inp => exact inv_write cfg hcfg s s' inp ha ih hstep
    | fsync =>
      simp only [step] at hstep
      cases hstep
      exact inv_fsync cfg s ih
    | poll =>
      simp only [step] at hstep
      cases hstep
      exact inv_poll cfg s ih
    | read inp => exact inv_read cfg hcfg s s' inp ha ih hstep

/-- A step of the writer changes no byte of `write_buf` below `read_index`. -/
theorem write_keeps_consumed (cfg : Config) (s s' : State) (inp : WriteIn) (hs : Inv cfg s)
    (h : doWrite_step cfg s inp = .running s') :
    s'.write_buf.take s.read_index.toNat = s.write_buf.take s.read_index.toNat := by
  have h2 := hs.sum
  have h5 := hs.cr_nonneg
  have h6 := hs.wnf_nonneg
  unfold doWrite_step at h
  split at h
  · cases h; rfl
  split at h
  · unfold doWrite_iter at h
    simp only at h
    split at h
    · cases h
    split at h
    · cases h
    cases h
    exact memcpy_take _ _ _ _ _ (by omega)
  · cases h; rfl

/-- A locked section of the reader lowers `can_read` by at most its value. -/
theorem read_decrement_bounds (cfg : Config) (s s' : State) (inp : ReadIn)
    (hv : (Action.read inp).valid) (hs : Inv cfg s)
    (h : doRead_step cfg s inp = .running s') :
    0 ≤ s.can_read - s'.can_read ∧ s.can_read - s'.can_read ≤ s.can_read := by
  have h5 := hs.cr_nonneg
  unfold doRead_step at h
  split at h
  · rename_i hpc
    have hpos := hs.ready hpc
    have hb := read_size_bounds s.can_read inp.rand hpos hv.1 hv.2
    unfold doRead_iter at h
    simp only at h
    split at h
    · cases h
    split at h
    · cases h
    split at h
    · cases h
    rename_i hseek hret hcmp
    simp only [ne_eq, not_not] at hret
    cases h
    simp only
    omega
  · cases h; omega

/-! ## Reachable states of the sample run -/

/-- A schedule of valid actions that does not exit leads to a reachable state. -/
theorem reachable_run (cfg : Config) (as : List Action) :
    ∀ s s' : State, Reachable cfg s → (∀ a ∈ as, a.valid) → run cfg s as = .running s' →
      Reachable cfg s' := by
  induction as with
  | nil =>
    intro s s' hs _ h
    simp only [run] at h
    cases h
    exact hs
  | cons a rest ih =>
    intro s s' hs hv h
    simp only [run] at h
    split at h
    · rename_i s1 hstep
      exact ih s1 s' (Reachable.next s s1 a hs (hv a (by simp)) hstep)
        (fun b hb => hv b (by simp [hb])) h
    · cases h

/-- The sample run starts in a reachable state. -/
theorem reachable_init_A : Reachable cfgA (init cfgA bufA bufA) :=
  Reachable.start bufA bufA (by decide) (by decide)

/-- The sample run reaches `stPending`. -/
theorem reachable_stPending : Reachable cfgA stPending :=
  reachable_run cfgA schedPending _ _ reachable_init_A (by decide) (by decide)

/-- The sample run reaches `stReady`. -/
theorem reachable_stReady : Reachable cfgA stReady :=
  reachable_run cfgA schedReady _ _ reachable_init_A (by decide) (by decide)

/-- The sample run reaches `stRead`. -/
theorem reachable_stRead : Reachable cfgA stRead :=
  reachable_run cfgA schedRead _ _ reachable_init_A (by decide) (by decide)

/-- The sample run reaches `stEnd`, where the three threads have left their loops. -/
theorem reachable_stEnd : Reachable cfgA stEnd :=
  reachable_run cfgA schedEnd _ _ reachable_init_A (by decide) (by decide)

/-! ## The claims -/

/-- C1: in every state reached without a fatal exit, the first `read_index` bytes of
`read_buf` equal the first `read_index` bytes of `write_buf`; the length
`SIZE_OF_DATA - size_of_data` that `doRead` compares is `read_index`; and no step of the
writer changes a byte of `write_buf` below `read_index`. -/
theorem consumed_bytes_match_written (cfg : Config) (hcfg : cfg.wf) (s : State)
    (h : Reachable cfg s) :
    s.read_buf.take s.read_index.toNat = s.write_buf.take s.read_index.toNat ∧
      0 ≤ s.read_index ∧
      toULL (cfg.SIZE_OF_DATA - s.r_size_of_data) = s.read_index ∧
      ∀ (inp : WriteIn) (s' : State), doWrite_step cfg s inp = .running s' →
        s'.write_buf.take s.read_index.toNat = s.write_buf.take s.read_index.toNat := by
  have hs := reachable_inv cfg hcfg s h
  obtain ⟨_, _, hT⟩ := hcfg
  have h1 := hs.rsize
  have h2 := hs.sum
  have h3 := hs.wi_le
  have h4 := hs.ri_nonneg
  have h5 := hs.cr_nonneg
  have h6 := hs.wnf_nonneg
  refine ⟨hs.same, hs.ri_nonneg, ?_, fun inp s' hw => write_keeps_consumed cfg s s' inp hs hw⟩
  rw [toULL_eq (by omega) (by omega)]; omega

/-- C1 at the state of the sample run after the reader's first locked section. -/
theorem consumed_bytes_match_written_witness :
    (cfgA.wf ∧ Reachable cfgA stRead) ∧
      stRead.read_buf.take stRead.read_index.toNat
        = stRead.write_buf.take stRead.read_index.toNat ∧
      0 ≤ stRead.read_index ∧
      toULL (cfgA.SIZE_OF_DATA - stRead.r_size_of_data) = stRead.read_index ∧
      ∀ (inp : WriteIn) (s' : State), doWrite_step cfgA stRead inp = .running s' →
        s'.write_buf.take stRead.read_index.toNat = stRead.write_buf.take stRead.read_index.toNat :=
  ⟨⟨by decide, reachable_stRead⟩,
    consumed_bytes_match_written cfgA (by decide) stRead reachable_stRead⟩

/-- C2: in every reachable state `read_index + can_read + written_no_fsync = write_index`;
hence `read_index` is at most `write_index - written_no_fsync`, the number of bytes an fsync
step has transferred; and while no fsync step has occurred, `can_read = 0` and
`read_index = 0`. -/
theorem no_read_ahead_of_commit (cfg : Config) (hcfg : cfg.wf) (s : State)
    (h : Reachable cfg s) :
    s.read_index + s.can_read + s.written_no_fsync = s.write_index ∧
      s.read_index ≤ s.write_index - s.written_no_fsync ∧
      (DevCall.fsync ∉ s.trace → s.can_read = 0 ∧ s.read_index = 0) := by
  have hs := reachable_inv cfg hcfg s h
  have h2 := hs.sum
  have h5 := hs.cr_nonneg
  exact ⟨hs.sum, by omega, hs.nofsync⟩

/-- C2 at the state of the sample run after three writes and no fsync. -/
theorem no_read_ahead_of_commit_witness :
    (cfgA.wf ∧ Reachable cfgA stPending) ∧
      stPending.read_index + stPending.can_read + stPending.written_no_fsync
        = stPending.write_index ∧
      stPending.read_index ≤ stPending.write_index - stPending.written_no_fsync ∧
      (DevCall.fsync ∉ stPending.trace → stPending.can_read = 0 ∧ stPending.read_index = 0) :=
  ⟨⟨by decide, reachable_stPending⟩,
    no_read_ahead_of_commit cfgA (by decide) stPending reachable_stPending⟩

/-- C3: in every reachable state `written_no_fsync ≥ 0` and `can_read ≥ 0`; once the reader
has left its unlocked spin loop, `can_read > 0` still holds whatever the other threads did
since (so the divisor of line 130 is not zero); and a locked section of the reader lowers
`can_read` by an amount between 0 and the value `can_read` had. -/
theorem counters_nonnegative (cfg : Config) (hcfg : cfg.wf) (s : State)
    (h : Reachable cfg s) :
    0 ≤ s.written_no_fsync ∧ 0 ≤ s.can_read ∧
      (s.r_pc = .ready → 0 < s.can_read) ∧
      ∀ (inp : ReadIn) (s' : State), (Action.read inp).valid →
        doRead_step cfg s inp = .running s' →
        0 ≤ s.can_read - s'.can_read ∧ s.can_read - s'.can_read ≤ s.can_read := by
  have hs := reachable_inv cfg hcfg s h
  exact ⟨hs.wnf_nonneg, hs.cr_nonneg, hs.ready,
    fun inp s' hv hr => read_decrement_bounds cfg s s' inp hv hs hr⟩

/-- C3 at the state of the sample run where the reader has left its spin loop. -/
theorem counters_nonnegative_witness :
    (cfgA.wf ∧ Reachable cfgA stReady) ∧
      0 ≤ stReady.written_no_fsync ∧ 0 ≤ stReady.can_read ∧
      (stReady.r_pc = .ready → 0 < stReady.can_read) ∧
      ∀ (inp : ReadIn) (s' : State), (Action.read inp).valid →
        doRead_step cfgA stReady inp = .running s' →
        0 ≤ stReady.can_read - s'.can_read ∧ stReady.can_read - s'.can_read ≤ stReady.can_read :=
  ⟨⟨by decide, reachable_stReady⟩,
    counters_nonnegative cfgA (by decide) stReady reachable_stReady⟩

/-- C4: for every state, the locked section of `doFsync` adds `written_no_fsync` to
`can_read` and sets `written_no_fsync` to 0, so their sum is unchanged, and it leaves
`write_buf`, `write_index`, `read_buf`, `read_index` and `read_done` unchanged. -/
theorem commit_transfers_pending (s : State) :
    (doFsync_iter s).can_read = s.can_read + s.written_no_fsync ∧
      (doFsync_iter s).written_no_fsync = 0 ∧
      (doFsync_iter s).can_read + (doFsync_iter s).written_no_fsync
        = s.can_read + s.written_no_fsync ∧
      (doFsync_iter s).write_buf = s.write_buf ∧
      (doFsync_iter s).write_index = s.write_index ∧
      (doFsync_iter s).read_buf = s.read_buf ∧
      (doFsync_iter s).read_index = s.read_index ∧
      (doFsync_iter s).read_done = s.read_done := by
  simp [doFsync_iter]

/-- C5: in every reachable state `0 ≤ write_index ≤ SIZE_OF_DATA` and
`0 ≤ read_index ≤ SIZE_OF_DATA`; the `size_of_data` of `doWrite` is
`SIZE_OF_DATA - write_index` and that of `doRead` is `SIZE_OF_DATA - read_index` as
integers (the 64-bit subtractions never wrap); once `doWrite` has left its loop
`write_index = SIZE_OF_DATA`, and once `read_done` is set `read_index = SIZE_OF_DATA`. -/
theorem conservation_law (cfg : Config) (hcfg : cfg.wf) (s : State) (h : Reachable cfg s) :
    (0 ≤ s.write_index ∧ s.write_index ≤ cfg.SIZE_OF_DATA) ∧
      (0 ≤ s.read_index ∧ s.read_index ≤ cfg.SIZE_OF_DATA) ∧
      s.w_size_of_data = cfg.SIZE_OF_DATA - s.write_index ∧
      s.r_size_of_data = cfg.SIZE_OF_DATA - s.read_index ∧
      (s.w_done = true → s.write_index = cfg.SIZE_OF_DATA) ∧
      (s.read_done = true → s.read_index = cfg.SIZE_OF_DATA) := by
  have hs := reachable_inv cfg hcfg s h
  have h2 := hs.sum
  have h3 := hs.wi_le
  have h4 := hs.ri_nonneg
  have h5 := hs.cr_nonneg
  have h6 := hs.wnf_nonneg
  exact ⟨⟨by omega, hs.wi_le⟩, ⟨hs.ri_nonneg, by omega⟩, hs.wsize, hs.rsize, hs.wdone, hs.rdone⟩

/-- C5 at the final state of the sample run. -/
theorem conservation_law_witness :
    (cfgA.wf ∧ Reachable cfgA stEnd) ∧
      (0 ≤ stEnd.write_index ∧ stEnd.write_index ≤ cfgA.SIZE_OF_DATA) ∧
      (0 ≤ stEnd.read_index ∧ stEnd.read_index ≤ cfgA.SIZE_OF_DATA) ∧
      stEnd.w_size_of_data = cfgA.SIZE_OF_DATA - stEnd.write_index ∧
      stEnd.r_size_of_data = cfgA.SIZE_OF_DATA - stEnd.read_index ∧
      (stEnd.w_done = true → stEnd.write_index = cfgA.SIZE_OF_DATA) ∧
      (stEnd.read_done = true → stEnd.read_index = cfgA.SIZE_OF_DATA) :=
  ⟨⟨by decide, reachable_stEnd⟩, conservation_law cfgA (by decide) stEnd reachable_stEnd⟩

/-- C6 as stated fails: with `can_read = 2` and `rand() = 0`, line 130 gives the read
length `0 % 2 = 0`, which is not in `[1, 2)`. -/
theorem read_size_can_be_zero :
    (1 : Int) ≤ 2 ∧ (0 : Int) ≤ 0 ∧ read_size 2 0 = 0 ∧
      ¬ (1 ≤ read_size 2 0 ∧ read_size 2 0 < 2) := by
  decide

/-- C6 amended: for `can_read ≥ 1` and a value `rand` of `rand()`, the read length of
line 130 is 1 when `can_read = 1`, and otherwise it is `rand % can_read`, which lies in
`[0, can_read)`; the reader asks for 0 bytes exactly when `can_read ≠ 1` divides `rand`. -/
theorem read_size_range (can_read rand : Int) (hc : 1 ≤ can_read) (hr : 0 ≤ rand)
    (hr' : rand ≤ RAND_MAX) :
    (can_read = 1 → read_size can_read rand = 1) ∧
      (can_read ≠ 1 →
        read_size can_read rand = rand % can_read ∧
          0 ≤ read_size can_read rand ∧ read_size can_read rand < can_read) ∧
      (read_size can_read rand = 0 ↔ can_read ≠ 1 ∧ rand % can_read = 0) := by
  have hb := read_size_bounds can_read rand (by omega) hr hr'
  have hone : can_read = 1 → read_size can_read rand = 1 := by
    intro h1
    subst h1
    unfold read_size
    simp [toInt]
  have hmod : can_read ≠ 1 → read_size can_read rand = rand % can_read := by
    intro hne
    unfold read_size
    unfold RAND_MAX at hr'
    rw [if_neg hne, cmod_eq_emod can_read hr]
    have h1 := Int.emod_nonneg rand (show can_read ≠ 0 by omega)
    have h3 : rand % can_read ≤ rand := emod_le_self hr (by omega)
    exact toInt_eq (by omega) (by omega)
  refine ⟨hone, fun hne => ⟨hmod hne, hb.1, hb.2.2 hne⟩, ?_⟩
  constructor
  · intro hz
    have hne : can_read ≠ 1 := by
      intro h1
      have := hone h1
      omega
    exact ⟨hne, by rw [← hmod hne]; exact hz⟩
  · rintro ⟨hne, hz⟩
    rw [hmod hne]; exact hz

/-- C6 amended, at `can_read = 6` and `rand() = 5`. -/
theorem read_size_range_witness :
    ((1 : Int) ≤ 6 ∧ (0 : Int) ≤ 5 ∧ (5 : Int) ≤ RAND_MAX) ∧
      ((6 : Int) = 1 → read_size 6 5 = 1) ∧
      ((6 : Int) ≠ 1 → read_size 6 5 = 5 % 6 ∧ 0 ≤ read_size 6 5 ∧ read_size 6 5 < 6) ∧
      (read_size 6 5 = 0 ↔ (6 : Int) ≠ 1 ∧ (5 : Int) % 6 = 0) :=
  ⟨by decide, read_size_range 6 5 (by decide) (by decide) (by decide)⟩

/-- C7 as stated fails: with `CHUNK_SIZE = 2`, `size_of_data = 2` and `rand() = 0`, line 74
gives the chunk length `0 % 2 = 0`, so it is not at least 1. -/
theorem write_size_can_be_zero :
    (2 : Int) ≤ 2 ∧ (1 : Int) ≤ 2 ∧ (0 : Int) ≤ 0 ∧ write_size 2 2 0 = 0 ∧
      ¬ (1 ≤ write_size 2 2 0) := by
  decide

/-- C7 amended: for `2 ≤ CHUNK_SIZE` (an `int`), `size_of_data ≥ 1` and a value
`rand ≥ 0` of `rand()`, the chunk length of line 74 is `min(size_of_data, v)` for some `v`
in `[0, CHUNK_SIZE)`; it lies in `[0, size_of_data]` and is below `CHUNK_SIZE`; it is
`size_of_data` when `size_of_data < CHUNK_SIZE` and `rand % CHUNK_SIZE` otherwise; the
writer writes 0 bytes exactly when `CHUNK_SIZE ≤ size_of_data` and `CHUNK_SIZE` divides
`rand`. -/
theorem write_size_range (C rem rand : Int) (hC : 2 ≤ C) (hC' : C ≤ 2147483647)
    (hrem : 1 ≤ rem) (hr : 0 ≤ rand) :
    (∃ v : Int, 0 ≤ v ∧ v < C ∧ write_size C rem rand = min rem v) ∧
      0 ≤ write_size C rem rand ∧ write_size C rem rand ≤ rem ∧ write_size C rem rand < C ∧
      (rem < C → write_size C rem rand = rem) ∧
      (C ≤ rem → write_size C rem rand = rand % C) ∧
      (write_size C rem rand = 0 ↔ C ≤ rem ∧ rand % C = 0) := by
  have hb := write_size_bounds C rem rand (by omega) hC' (by omega) hr
  have h1 := Int.emod_nonneg rand (show C ≠ 0 by omega)
  have h2 := Int.emod_lt_of_pos rand (show 0 < C by omega)
  have hlt : rem < C → write_size C rem rand = rem := by
    intro h
    unfold write_size
    rw [if_pos h]
    exact toInt_eq (by omega) (by omega)
  have hge : C ≤ rem → write_size C rem rand = rand % C := by
    intro h
    unfold write_size
    rw [if_neg (by omega), cmod_eq_emod C hr]
    exact toInt_eq (by omega) (by omega)
  refine ⟨⟨write_size C rem rand, hb.1, hb.2.2, ?_⟩, hb.1, hb.2.1, hb.2.2, hlt, hge, ?_⟩
  · rw [min_eq_right hb.2.1]
  · constructor
    · intro hz
      have hle : C ≤ rem := by
        by_contra hn
        have := hlt (by omega)
        omega
      exact ⟨hle, by rw [← hge hle]; exact hz⟩
    · rintro ⟨hle, hz⟩
      rw [hge hle]; exact hz

/-- C7 amended, at `CHUNK_SIZE = 3`, `size_of_data = 8` and `rand() = 5`. -/
theorem write_size_range_witness :
    ((2 : Int) ≤ 3 ∧ (3 : Int) ≤ 2147483647 ∧ (1 : Int) ≤ 8 ∧ (0 : Int) ≤ 5) ∧
      (∃ v : Int, 0 ≤ v ∧ v < 3 ∧ write_size 3 8 5 = min 8 v) ∧
      0 ≤ write_size 3 8 5 ∧ write_size 3 8 5 ≤ 8 ∧ write_size 3 8 5 < 3 ∧
      ((8 : Int) < 3 → write_size 3 8 5 = 8) ∧
      ((3 : Int) ≤ 8 → write_size 3 8 5 = 5 % 3) ∧
      (write_size 3 8 5 = 0 ↔ (3 : Int) ≤ 8 ∧ (5 : Int) % 3 = 0) :=
  ⟨by decide, write_size_range 3 8 5 (by decide) (by decide) (by decide) (by decide)⟩

/-- C8 as stated fails: in the sample run the writer's three passes call `lseek` with the
offsets `0x10000000`, `0x10000002`, `0x10000004`, and the reader's two locked sections call it
with `0x10000000` and `0x10000005`: the offset grows by the bytes already transferred. -/
theorem seek_offset_not_fixed :
    (run cfgA (init cfgA bufA bufA)
        (schedRead ++ [.poll, .read ⟨4, 0x10000005, 1, [102]⟩])).calls =
        [.lseek 0x10000000, .write 2, .lseek 0x10000002, .write 2, .lseek 0x10000004, .write 2,
          .fsync, .lseek 0x10000000, .read 5, .lseek 0x10000005, .read 1] ∧
      (0x10000002 : Int) ≠ BASE_OFFSET ∧ (0x10000005 : Int) ≠ BASE_OFFSET := by
  decide

/-- C8 amended: in every reachable state, a pass of the writer's loop calls `lseek` with
`0x010000000 + write_index` and a locked section of the reader calls it with
`0x010000000 + read_index`, where the indices count the bytes that thread transferred in
its earlier passes. -/
theorem seek_offset_follows_index (cfg : Config) (hcfg : cfg.wf) (s : State)
    (h : Reachable cfg s) (wi : WriteIn) (ri : ReadIn) :
    (doWrite_iter cfg s wi).calls[s.trace.length]?
        = some (DevCall.lseek (0x010000000 + s.write_index)) ∧
      (doRead_iter cfg s ri).calls[s.trace.length]?
        = some (DevCall.lseek (0x010000000 + s.read_index)) := by
  have hs := reachable_inv cfg hcfg s h
  have hw := hs.woff
  have hr := hs.roff
  unfold BASE_OFFSET at hw hr
  constructor
  · unfold doWrite_iter
    simp only [hw]
    split
    · exact getElem?_after _ _ _
    split <;> simp only [Result.calls, List.append_assoc] <;> exact getElem?_after _ _ _
  · unfold doRead_iter
    simp only [hr]
    split
    · exact getElem?_after _ _ _
    split
    · simp only [Result.calls, List.append_assoc]; exact getElem?_after _ _ _
    split <;> simp only [Result.calls, List.append_assoc] <;> exact getElem?_after _ _ _

/-- C8 amended, at the state of the sample run after the reader's first locked section. -/
theorem seek_offset_follows_index_witness :
    (cfgA.wf ∧ Reachable cfgA stRead) ∧
      (doWrite_iter cfgA stRead ⟨0, [6, 7, 8], 0x10000006, 2⟩).calls[stRead.trace.length]?
        = some (DevCall.lseek (0x010000000 + stRead.write_index)) ∧
      (doRead_iter cfgA stRead ⟨4, 0x10000005, 1, [102]⟩).calls[stRead.trace.length]?
        = some (DevCall.lseek (0x010000000 + stRead.read_index)) :=
  ⟨⟨by decide, reachable_stRead⟩,
    seek_offset_follows_index cfgA (by decide) stRead reachable_stRead _ _⟩

/-- The inputs on which `main` returns 0. -/
theorem main_eq_zero_iff (cfg : Config) (i : MainIn) :
    main cfg i = 0 ↔
      (i.startup_ok ∧ memcmp i.write_buf i.read_buf cfg.SIZE_OF_DATA = 0) ∨
        (i.write_buf_ok = true ∧ i.read_buf_ok = true ∧ i.mutex_init_ret ≠ 0) := by
  unfold main MainIn.startup_ok ENOMEM
  simp only
  split <;> rename_i h1
  · simp at h1; simp [h1]
  split <;> rename_i h2
  · simp at h2; simp [h2]
  simp at h1 h2
  split <;> rename_i h3
  · simp [h1, h2, h3]
  simp at h3
  split <;> rename_i h4
  · simp [h3, h4]
  split <;> rename_i h5
  · simp [h3, h5]
  split <;> rename_i h6
  · simp [h3, h5, h6]
  split <;> rename_i h7
  · simp [h3, h5, h6, h7]
  simp at h5 h6 h7
  split <;> rename_i h8
  · simp [h1, h2, h3, h4, h5, h6, h7, h8]
  · simp [h3, h8]

/-- C9, the code at the failing input: the two allocations succeed and
`pthread_mutex_init` returns 12; the start-up did not succeed, and `main` returns 0. -/
theorem main_returns_zero_when_mutex_init_fails :
    ¬ mainInMutexFails.startup_ok ∧ main cfgA mainInMutexFails = 0 := by
  unfold MainIn.startup_ok
  decide

/-- C10, the code at the failing input: with `CHUNK_SIZE = 3`, after three writes of 2 bytes,
one fsync and the reader's spin loop, `can_read = 6`; with `rand() = 5` the reader asks for
`5 % 6 = 5` bytes, more than the 3 bytes of `dstBuf`, and goes on when the device returns
them. -/
theorem read_size_exceeds_chunk_size :
    run cfgA (init cfgA bufA bufA) schedReady = .running stReady ∧
      stReady.r_pc = .ready ∧ stReady.can_read = 6 ∧
      read_size stReady.can_read readInA.rand = 5 ∧
      (cfgA.CHUNK_SIZE : Int) < read_size stReady.can_read readInA.rand ∧
      step cfgA stReady (.read readInA) = .running stRead ∧
      stRead.trace.getLast? = some (.read 5) := by
  decide

end MtReadWrite
